import Mathlib

/-!
Shallow embedding of the Shahnameh text-generation notebooks (character-level
variant, with the word-level variant sharing the same pipeline logic).

The embedded pieces are:
* the character vocabulary (`vocabulary`, from `sorted(set(text))`),
* the `StringLookup` encode/decode pair (`char_to_ids`, `ids_to_char`,
  `text_to_ids`, `ids_to_text`),
* the windowing pipeline (`batchList` models `Dataset.batch(n, drop_remainder
  = True)`, `dataset`, `create_input_target` models `ids[:-1], ids[1:]`),
* the sampling head of `One_Step` (`predictionMask`, `maskedScores`,
  `categoricalProb`, `One_Step.init`, `One_Step.generate_one_step`).

Scores are rationals; `-infinity` entries of the prediction mask live in
`WithBot ℚ`.  The categorical draw of `tf.random.categorical` weights index
`i` by a positive function of its score (softmax weight `exp`); the weight
function is an arbitrary parameter `w`, with a masked (`⊥`) score always
weighing `0` — exactly `exp(-inf) = 0`.
-/

namespace Shahnameh

/-- The reserved unknown token of `StringLookup`, the five characters of
the literal string `[UNK]`. -/
def unknownToken : List Char := "[UNK]".toList

/-- Character-mode vocabulary: `sorted(set(text))` — the distinct characters
of the corpus in increasing order. -/
def vocabulary (text : List Char) : List Char :=
  List.insertionSort (· ≤ ·) text.dedup

/-- The full lookup table of `StringLookup(vocabulary=vocab, mask_token=None)`:
the OOV token `[UNK]` at index 0 followed by the vocabulary entries (each a
one-character string). -/
def lookupVocab (vocab : List Char) : List (List Char) :=
  unknownToken :: vocab.map (fun c => [c])

/-- Index of the first occurrence of `t` (meaningful when `t` is a member). -/
def lookIdx {α : Type} [DecidableEq α] (t : α) : List α → ℕ
  | [] => 0
  | s :: rest => if s = t then 0 else lookIdx t rest + 1

/-- Forward `StringLookup`: a key present in the table maps to its index,
any other key maps to the OOV index 0. -/
def char_to_ids (vocab : List Char) (t : List Char) : ℕ :=
  if t ∈ lookupVocab vocab then lookIdx t (lookupVocab vocab) else 0

/-- Inverse `StringLookup`: an in-range id maps to its table entry, any
out-of-range id maps to the OOV token `[UNK]`. -/
def ids_to_char (vocab : List Char) (i : ℕ) : List Char :=
  (lookupVocab vocab).getD i unknownToken

/-- `char_to_ids(list(text))`: encode a text character by character. -/
def text_to_ids (vocab : List Char) (text : List Char) : List ℕ :=
  text.map (fun c => char_to_ids vocab [c])

/-- `ids_to_text`: decode every id and concatenate the resulting strings. -/
def ids_to_text (vocab : List Char) (ids : List ℕ) : List Char :=
  (ids.map (ids_to_char vocab)).flatten

/-- `Dataset.batch(n, drop_remainder=True)`: consecutive blocks of exactly
`n` elements; a trailing remainder shorter than `n` is dropped. -/
def batchList {α : Type} (n : ℕ) (l : List α) : List (List α) :=
  if _h : 0 < n ∧ n ≤ l.length then l.take n :: batchList n (l.drop n) else []
termination_by l.length
decreasing_by simp only [List.length_drop]; omega

/-- The windowing pipeline before the input/target split:
`seq.batch(W + 1, drop_remainder=True)` over the token stream. -/
def dataset (W : ℕ) (stream : List ℕ) : List (List ℕ) :=
  batchList (W + 1) stream

/-- `create_input_target(ids) = (ids[:-1], ids[1:])`. -/
def create_input_target (ids : List ℕ) : List ℕ × List ℕ :=
  (ids.dropLast, ids.tail)

/-- The dense form of the sparse prediction mask: length `vocabSize`,
`-infinity` at `unkId`, `0` elsewhere. -/
def predictionMask (vocabSize unkId : ℕ) : List (WithBot ℚ) :=
  (List.range vocabSize).map (fun i => if i = unkId then ⊥ else 0)

/-- `predicted / temperature + prediction_mask`, elementwise. -/
def maskedScores (mask : List (WithBot ℚ)) (temperature : ℚ)
    (scores : List ℚ) : List (WithBot ℚ) :=
  List.zipWith (fun s m => (↑(s / temperature) + m : WithBot ℚ)) scores mask

/-- Sampling weight of one (possibly masked) score: a masked score weighs
zero, a finite score weighs `w` of it (`w` abstracts the softmax `exp`). -/
def weight (w : ℚ → ℚ) (s : WithBot ℚ) : ℚ :=
  WithBot.recBotCoe 0 w s

/-- Probability that `tf.random.categorical` draws index `i` from the given
scores: the weight at `i` over the total weight. -/
def categoricalProb (w : ℚ → ℚ) (scores : List (WithBot ℚ)) (i : ℕ) : ℚ :=
  weight w (scores.getD i ⊥) / (scores.map (weight w)).sum

/-- State built by `One_Step.__init__`: the temperature is stored as given
(no validation of any kind is performed) and the prediction mask is built
from the vocabulary size and the unknown id. -/
structure One_Step where
  temperature : ℚ
  prediction_mask : List (WithBot ℚ)

/-- `One_Step.__init__(model, ids_to_char, char_to_ids, temperature)`:
stores the temperature unconditionally and materialises the sparse mask. -/
def One_Step.init (vocabSize unkId : ℕ) (temperature : ℚ) : One_Step :=
  { temperature := temperature, prediction_mask := predictionMask vocabSize unkId }

/-- `One_Step.generate_one_step`: encode the input text to ids, feed the ids
(unchanged — the mask is not applied to them) to the model, divide the final
scores by the temperature, add the prediction mask, and draw categorically.
The recurrent model with its carried hidden state is abstracted as a function
from the input ids to the final-position score vector; the returned pair is
(the ids consumed by the model, the sampling distribution). -/
def One_Step.generate_one_step (os : One_Step) (vocab : List Char)
    (model : List ℕ → List ℚ) (w : ℚ → ℚ) (input : List Char) :
    List ℕ × (ℕ → ℚ) :=
  let input_ids := text_to_ids vocab input
  let predicted := model input_ids
  let masked := maskedScores os.prediction_mask os.temperature predicted
  (input_ids, fun i => categoricalProb w masked i)

/-! Helper lemmas. -/

theorem lookIdx_getD {α : Type} [DecidableEq α] (t d : α) :
    ∀ l : List α, t ∈ l → l.getD (lookIdx t l) d = t
  | [], h => absurd h (List.not_mem_nil t)
  | s :: rest, h => by
    by_cases hs : s = t
    · simp [lookIdx, hs]
    · have ht : t ∈ rest := by
        rcases List.mem_cons.mp h with h1 | h1
        · exact absurd h1.symm hs
        · exact h1
      simp only [lookIdx, if_neg hs, List.getD_cons_succ]
      exact lookIdx_getD t d rest ht

theorem ids_to_char_char_to_ids {vocab : List Char} {t : List Char}
    (h : t ∈ lookupVocab vocab) :
    ids_to_char vocab (char_to_ids vocab t) = t := by
  rw [char_to_ids, if_pos h, ids_to_char]
  exact lookIdx_getD t unknownToken (lookupVocab vocab) h

theorem singleton_mem_lookupVocab {vocab : List Char} {c : Char}
    (h : c ∈ vocab) : [c] ∈ lookupVocab vocab :=
  List.mem_cons_of_mem _ (List.mem_map_of_mem (fun c => [c]) h)

theorem singleton_not_mem_lookupVocab {vocab : List Char} {c : Char}
    (h : c ∉ vocab) : [c] ∉ lookupVocab vocab := by
  intro hmem
  rcases List.mem_cons.mp hmem with h1 | h1
  · exact absurd (congrArg List.length h1) (by simp [unknownToken])
  · rcases List.mem_map.mp h1 with ⟨a, ha, hae⟩
    cases hae
    exact h ha

theorem ids_to_text_text_to_ids {vocab : List Char} :
    ∀ s : List Char, (∀ c ∈ s, c ∈ vocab) →
      ids_to_text vocab (text_to_ids vocab s) = s
  | [], _ => rfl
  | c :: rest, h => by
    have hc : c ∈ vocab := h c (List.mem_cons_self c rest)
    have hrest : ∀ x ∈ rest, x ∈ vocab := fun x hx =>
      h x (List.mem_cons_of_mem c hx)
    have hone : ids_to_char vocab (char_to_ids vocab [c]) = [c] :=
      ids_to_char_char_to_ids (singleton_mem_lookupVocab hc)
    have ih := ids_to_text_text_to_ids rest hrest
    simp only [ids_to_text, text_to_ids, List.map_cons, List.map_map,
      List.flatten_cons] at ih ⊢
    rw [hone, List.singleton_append, ih]

theorem batchList_eq {α : Type} (n : ℕ) (hn : 0 < n) (l : List α) :
    batchList n l =
      (List.range (l.length / n)).map (fun j => (l.drop (j * n)).take n) := by
  by_cases h : n ≤ l.length
  · rw [batchList, dif_pos ⟨hn, h⟩, Nat.div_eq_sub_div hn h,
      List.range_succ_eq_map, List.map_cons, List.map_map]
    have hfun : ((fun j => (l.drop (j * n)).take n) ∘ Nat.succ) =
        fun j => ((l.drop n).drop (j * n)).take n := by
      funext j
      simp only [Function.comp, List.drop_drop, Nat.succ_mul]
      rw [Nat.add_comm (j * n) n]
    rw [hfun, ← List.length_drop, ← batchList_eq n hn (l.drop n)]
    simp
  · rw [batchList, dif_neg (by omega), Nat.div_eq_of_lt (by omega)]
    simp
termination_by l.length
decreasing_by simp only [List.length_drop]; omega

theorem batchList_flatten {α : Type} (n : ℕ) (hn : 0 < n) (l : List α) :
    (batchList n l).flatten = l.take (l.length / n * n) := by
  by_cases h : n ≤ l.length
  · rw [batchList, dif_pos ⟨hn, h⟩, List.flatten_cons,
      batchList_flatten n hn (l.drop n), List.length_drop,
      Nat.div_eq_sub_div hn h, Nat.add_mul, one_mul, Nat.add_comm,
      List.take_add]
  · rw [batchList, dif_neg (by omega), Nat.div_eq_of_lt (by omega)]
    simp
termination_by l.length
decreasing_by simp only [List.length_drop]; omega

theorem getD_take_drop (l : List ℕ) (s k i : ℕ) (hik : i < k)
    (hsk : s + k ≤ l.length) :
    ((l.drop s).take k).getD i 0 = l.getD (s + i) 0 := by
  have h1 : i < ((l.drop s).take k).length := by
    simp only [List.length_take, List.length_drop]
    omega
  have h2 : s + i < l.length := by omega
  rw [List.getD_eq_getElem _ _ h1, List.getD_eq_getElem _ _ h2,
    List.getElem_take, List.getElem_drop]

theorem maskedScores_length {v u : ℕ} (t : ℚ) {scores : List ℚ}
    (hs : scores.length = v) :
    (maskedScores (predictionMask v u) t scores).length = v := by
  simp [maskedScores, predictionMask, hs]

theorem maskedScores_getD_unk {v u : ℕ} (hu : u < v) (t : ℚ)
    {scores : List ℚ} (hs : scores.length = v) :
    (maskedScores (predictionMask v u) t scores).getD u ⊥ = ⊥ := by
  have hu1 : u < scores.length := by omega
  have ha : scores[u]? = some (scores.get ⟨u, hu1⟩) := by
    rw [List.getElem?_eq_getElem hu1]
    simp
  have h2 : (predictionMask v u)[u]? = some ⊥ := by
    simp [predictionMask, List.getElem?_range, hu]
  simp only [maskedScores, List.getD_eq_getElem?_getD, List.getElem?_zipWith',
    ha, h2]
  simp [WithBot.add_bot]

theorem maskedScores_getD_ne {v u i : ℕ} (hi : i < v) (hiu : i ≠ u) (t : ℚ)
    {scores : List ℚ} (hs : scores.length = v) :
    (maskedScores (predictionMask v u) t scores).getD i ⊥ =
      ((scores.getD i 0 / t : ℚ) : WithBot ℚ) := by
  have hi1 : i < scores.length := by omega
  have ha : scores[i]? = some (scores.get ⟨i, hi1⟩) := by
    rw [List.getElem?_eq_getElem hi1]
    simp
  have h2 : (predictionMask v u)[i]? = some 0 := by
    simp [predictionMask, List.getElem?_range, hi, hiu]
  simp only [maskedScores, List.getD_eq_getElem?_getD, List.getElem?_zipWith',
    ha, h2]
  simp

theorem categoricalProb_unk_eq_zero {v u : ℕ} (hu : u < v) (t : ℚ)
    (w : ℚ → ℚ) {scores : List ℚ} (hs : scores.length = v) :
    categoricalProb w (maskedScores (predictionMask v u) t scores) u = 0 := by
  rw [categoricalProb, maskedScores_getD_unk hu t hs]
  simp [weight]

/-! Claim theorems. -/

/-- C2: the Prediction Mask has length `vocabulary_size`, value `-infinity`
at the unknown id and `0` at every other index; and for any score vector and
any temperature, after adding the mask to the temperature-scaled scores the
categorical sampling distribution assigns probability exactly zero to the
unknown id, whatever (softmax) weight function the draw uses. -/
theorem C2_mask_suppresses_unknown (v u : ℕ) (hu : u < v) :
    (predictionMask v u).length = v ∧
    (predictionMask v u).getD u 0 = ⊥ ∧
    (∀ i, i < v → i ≠ u → (predictionMask v u).getD i 0 = 0) ∧
    ∀ (scores : List ℚ) (t : ℚ) (w : ℚ → ℚ), scores.length = v →
      categoricalProb w (maskedScores (predictionMask v u) t scores) u = 0 := by
  refine ⟨by simp [predictionMask], ?_, ?_, ?_⟩
  · have h : u < (predictionMask v u).length := by simp [predictionMask, hu]
    rw [List.getD_eq_getElem _ _ h]
    simp [predictionMask]
  · intro i hi hiu
    have h : i < (predictionMask v u).length := by simp [predictionMask, hi]
    rw [List.getD_eq_getElem _ _ h]
    simp [predictionMask, hiu]
  · intro scores t w hs
    exact categoricalProb_unk_eq_zero hu t w hs

/-- C2 witness: instantiated at vocabulary size 3, unknown id 0, scores
`[1, 2, 3]`, temperature 2 and constant weight function. -/
theorem C2_witness :
    categoricalProb (fun _ => 1)
      (maskedScores (predictionMask 3 0) 2 [1, 2, 3]) 0 = 0 :=
  (C2_mask_suppresses_unknown 3 0 (by omega)).2.2.2 [1, 2, 3] 2 (fun _ => 1)
    (by simp)

/-- C4 counterexample: the claim says a non-positive temperature is rejected
with `InvalidConfig` before any work begins, but `One_Step.__init__` performs
no validation at all: with temperature `-1` the sampler state is fully
constructed and a generation step still runs to completion, producing a
well-defined sampling distribution (here giving probability 1/2 to id 1). -/
theorem C4_counterexample :
    (One_Step.init 3 0 (-1)).temperature = -1 ∧
    ((One_Step.init 3 0 (-1)).generate_one_step ['a', 'b']
      (fun _ => [1, 2, 3]) (fun _ => 1) ['a']).1 = [1] ∧
    ((One_Step.init 3 0 (-1)).generate_one_step ['a', 'b']
      (fun _ => [1, 2, 3]) (fun _ => 1) ['a']).2 1 = 1 / 2 := by
  refine ⟨rfl, by decide, ?_⟩
  simp only [One_Step.generate_one_step, One_Step.init, text_to_ids,
    List.map_cons, List.map_nil]
  norm_num [char_to_ids, lookupVocab, unknownToken, lookIdx, categoricalProb,
    maskedScores, predictionMask, weight, List.range_succ]

/-- C4 amended: the code performs no temperature validation. For every
temperature, non-positive ones included, `One_Step.__init__` succeeds,
storing the temperature as given and building the prediction mask, and
`generate_one_step` still consumes its input; no `InvalidConfig` failure
path exists in the code. (Runs with temperature > 0 are accepted as a
special case.) -/
theorem C4_no_temperature_validation (v u : ℕ) (t : ℚ) (_ht : t ≤ 0) :
    (One_Step.init v u t).temperature = t ∧
    (One_Step.init v u t).prediction_mask = predictionMask v u ∧
    ∀ (vocab : List Char) (model : List ℕ → List ℚ) (w : ℚ → ℚ)
      (input : List Char),
      ((One_Step.init v u t).generate_one_step vocab model w input).1 =
        text_to_ids vocab input := by
  exact ⟨rfl, rfl, fun _ _ _ _ => rfl⟩

/-- C4 amended witness: instantiated at temperature `-1`. -/
theorem C4_witness :
    (One_Step.init 3 0 (-1)).temperature = -1 ∧
    (One_Step.init 3 0 (-1)).prediction_mask = predictionMask 3 0 :=
  ⟨(C4_no_temperature_validation 3 0 (-1) (by norm_num)).1,
    (C4_no_temperature_validation 3 0 (-1) (by norm_num)).2.1⟩

/-- C5: for every token of the lookup vocabulary (the `[UNK]` sentinel
included), decoding its encoding gives the token back; and any string made
only of in-vocabulary characters decodes from its encoding to the same
character sequence. -/
theorem C5_roundtrip (vocab : List Char) :
    (∀ t ∈ lookupVocab vocab, ids_to_char vocab (char_to_ids vocab t) = t) ∧
    ∀ s : List Char, (∀ c ∈ s, c ∈ vocab) →
      ids_to_text vocab (text_to_ids vocab s) = s :=
  ⟨fun _ ht => ids_to_char_char_to_ids ht,
    fun s hs => ids_to_text_text_to_ids s hs⟩

/-- C5 witness: round trip through the vocabulary `['a', 'b']`. -/
theorem C5_witness :
    ids_to_text ['a', 'b'] (text_to_ids ['a', 'b'] ['a', 'b', 'a']) =
      ['a', 'b', 'a'] :=
  (C5_roundtrip ['a', 'b']).2 ['a', 'b', 'a'] (by decide)

/-- C6: in character mode the vocabulary is the strictly sorted list of the
distinct characters of the text (same members, no duplicates, increasing),
with the `[UNK]` sentinel prepended at fixed id 0; the corpus `aab` gives
exactly the tokens `a` and `b` plus the sentinel, vocabulary size 3. -/
theorem C6_vocabulary_sorted_distinct (text : List Char) :
    (vocabulary text).Sorted (· < ·) ∧
    (∀ c, c ∈ vocabulary text ↔ c ∈ text) ∧
    (lookupVocab (vocabulary text)).getD 0 [] = unknownToken ∧
    vocabulary "aab".toList = ['a', 'b'] ∧
    (lookupVocab (vocabulary "aab".toList)).length = 3 := by
  refine ⟨?_, ?_, rfl, by decide, by decide⟩
  · have hs : (vocabulary text).Sorted (· ≤ ·) :=
      List.sorted_insertionSort (· ≤ ·) text.dedup
    have hn : (vocabulary text).Nodup :=
      (List.perm_insertionSort (· ≤ ·) text.dedup).nodup_iff.mpr
        (List.nodup_dedup text)
    exact hs.lt_of_le hn
  · intro c
    rw [vocabulary, List.mem_insertionSort, List.mem_dedup]

/-- C7: a character absent from the vocabulary encodes, with no failure, to
the reserved unknown id 0, and that id is consumed: `generate_one_step`
passes the encoded ids to the model unchanged (the mask touches only the
output scores), while the mask drives the probability of producing the
unknown id to zero. -/
theorem C7_unknown_consumed_not_produced (vocab : List Char) (c : Char)
    (hc : c ∉ vocab) :
    char_to_ids vocab [c] = 0 ∧
    text_to_ids vocab [c] = [0] ∧
    (∀ (t : ℚ) (model : List ℕ → List ℚ) (w : ℚ → ℚ) (input : List Char),
      ((One_Step.init (lookupVocab vocab).length 0 t).generate_one_step
          vocab model w input).1 = text_to_ids vocab input) ∧
    ∀ (t : ℚ) (model : List ℕ → List ℚ) (w : ℚ → ℚ) (input : List Char),
      (model (text_to_ids vocab input)).length = (lookupVocab vocab).length →
      ((One_Step.init (lookupVocab vocab).length 0 t).generate_one_step
          vocab model w input).2 0 = 0 := by
  have h0 : char_to_ids vocab [c] = 0 := by
    rw [char_to_ids, if_neg (singleton_not_mem_lookupVocab hc)]
  refine ⟨h0, by simp [text_to_ids, h0], fun _ _ _ _ => rfl, ?_⟩
  intro t model w input hlen
  have hv : 0 < (lookupVocab vocab).length := by simp [lookupVocab]
  exact categoricalProb_unk_eq_zero hv t w hlen

/-- C7 witness: vocabulary `['a']`, out-of-vocabulary character `b`. -/
theorem C7_witness :
    char_to_ids ['a'] ['b'] = 0 ∧
    ((One_Step.init (lookupVocab ['a']).length 0 1).generate_one_step
        ['a'] (fun _ => [1, 2]) (fun _ => 1) ['b']).2 0 = 0 :=
  ⟨(C7_unknown_consumed_not_produced ['a'] 'b' (by decide)).1,
    (C7_unknown_consumed_not_produced ['a'] 'b' (by decide)).2.2.2 1
      (fun _ => [1, 2]) (fun _ => 1) ['b'] (by decide)⟩

/-- C8: a token stream shorter than `W + 1` yields zero windows, and the
batching stage then yields an empty batch sequence; both stages are total,
so no error is raised. -/
theorem C8_short_stream_yields_nothing (W B : ℕ) (stream : List ℕ)
    (h : stream.length < W + 1) :
    dataset W stream = [] ∧ batchList B (dataset W stream) = [] := by
  have h1 : dataset W stream = [] := by
    rw [dataset, batchList, dif_neg (by omega)]
  refine ⟨h1, ?_⟩
  rw [h1, batchList, dif_neg]
  rintro ⟨hB1, hB2⟩
  simp at hB2
  omega

/-- C8 witness: a 2-token stream with window length 3. -/
theorem C8_witness :
    dataset 3 [1, 2] = [] ∧ batchList 2 (dataset 3 [1, 2]) = [] :=
  C8_short_stream_yields_nothing 3 2 [1, 2] (by decide)

/-- C9: for every temperature `t > 0`, dividing the scores by `t` and adding
the Prediction Mask preserves the relative order of the scores of any two
non-unknown ids (so in particular the top non-unknown id is the same for
every such `t`), while the unknown id's masked score is `-infinity`. -/
theorem C9_temperature_preserves_order (v u : ℕ) (scores : List ℚ) (t : ℚ)
    (i j : ℕ) (ht : 0 < t) (hs : scores.length = v) (hu : u < v)
    (hi : i < v) (hj : j < v) (hiu : i ≠ u) (hju : j ≠ u) :
    ((maskedScores (predictionMask v u) t scores).getD i ⊥ <
        (maskedScores (predictionMask v u) t scores).getD j ⊥ ↔
      scores.getD i 0 < scores.getD j 0) ∧
    (maskedScores (predictionMask v u) t scores).getD u ⊥ = ⊥ := by
  refine ⟨?_, maskedScores_getD_unk hu t hs⟩
  rw [maskedScores_getD_ne hi hiu t hs, maskedScores_getD_ne hj hju t hs]
  rw [WithBot.coe_lt_coe]
  exact div_lt_div_iff_of_pos_right ht

/-- C9 witness: vocabulary size 3, unknown id 0, scores `[1, 2, 3]`,
temperature 2, comparing ids 1 and 2. -/
theorem C9_witness :
    ((maskedScores (predictionMask 3 0) 2 [1, 2, 3]).getD 1 ⊥ <
        (maskedScores (predictionMask 3 0) 2 [1, 2, 3]).getD 2 ⊥ ↔
      ([1, 2, 3] : List ℚ).getD 1 0 < ([1, 2, 3] : List ℚ).getD 2 0) ∧
    (maskedScores (predictionMask 3 0) 2 [1, 2, 3]).getD 0 ⊥ = ⊥ :=
  C9_temperature_preserves_order 3 0 [1, 2, 3] 2 1 2 (by norm_num) (by simp)
    (by omega) (by omega) (by omega) (by omega) (by omega)

/-- C10: decoding the unknown id 0 yields the literal five-character string
`[UNK]` for every vocabulary, so the decoded text of the id sequence `[0]`
has 5 characters — more characters than ids decoded; decoding is not
length-preserving at the unknown id. -/
theorem C10_unknown_decodes_to_five_chars (vocab : List Char) :
    ids_to_char vocab 0 = "[UNK]".toList ∧
    (ids_to_text vocab [0]).length = 5 ∧
    1 < (ids_to_text vocab [0]).length :=
  ⟨rfl, rfl, by
    have h : (ids_to_text vocab [0]).length = 5 := rfl
    omega⟩

/-- C1: for every window produced by the pipeline (window `j` of the stream,
window length `W`), the input is the first `W` ids and the target the last
`W` ids of the same `W + 1` block: `tgt[i] = in[i + 1]` for `0 ≤ i < W - 1`,
the last input token sits at stream position `j(W+1) + W - 1`, and
`tgt[W - 1]` is the stream token immediately after it, at `j(W+1) + W`. -/
theorem C1_target_is_shifted_input (W : ℕ) (stream : List ℕ) (j : ℕ)
    (hW : 0 < W) (hj : j < stream.length / (W + 1)) :
    (create_input_target ((dataset W stream).getD j [])).1.length = W ∧
    (create_input_target ((dataset W stream).getD j [])).2.length = W ∧
    (∀ i, i + 1 < W →
      (create_input_target ((dataset W stream).getD j [])).2.getD i 0 =
        (create_input_target ((dataset W stream).getD j [])).1.getD (i + 1) 0) ∧
    (create_input_target ((dataset W stream).getD j [])).1.getD (W - 1) 0 =
      stream.getD (j * (W + 1) + (W - 1)) 0 ∧
    (create_input_target ((dataset W stream).getD j [])).2.getD (W - 1) 0 =
      stream.getD (j * (W + 1) + W) 0 := by
  have hm : 0 < W + 1 := Nat.succ_pos W
  have hb1 : (j + 1) * (W + 1) ≤ stream.length :=
    (Nat.le_div_iff_mul_le hm).mp (Nat.succ_le_of_lt hj)
  have hb2 : (j + 1) * (W + 1) = j * (W + 1) + (W + 1) := by ring
  have hbound : j * (W + 1) + (W + 1) ≤ stream.length := by omega
  have hwin : (dataset W stream).getD j [] =
      (stream.drop (j * (W + 1))).take (W + 1) := by
    rw [dataset, batchList_eq (W + 1) hm]
    have hjlen : j < ((List.range (stream.length / (W + 1))).map
        (fun k => (stream.drop (k * (W + 1))).take (W + 1))).length := by
      simpa using hj
    rw [List.getD_eq_getElem _ _ hjlen]
    simp
  have hwl : ((stream.drop (j * (W + 1))).take (W + 1)).length = W + 1 := by
    simp only [List.length_take, List.length_drop]
    omega
  have hinp : (create_input_target ((dataset W stream).getD j [])).1 =
      (stream.drop (j * (W + 1))).take W := by
    rw [hwin, create_input_target]
    rw [List.dropLast_eq_take, hwl, Nat.add_sub_cancel, List.take_take,
      Nat.min_eq_left (by omega)]
  have htgt : (create_input_target ((dataset W stream).getD j [])).2 =
      (stream.drop (j * (W + 1) + 1)).take W := by
    rw [hwin, create_input_target]
    rw [← List.drop_one, List.drop_take, List.drop_drop,
      Nat.add_sub_cancel]
  refine ⟨?_, ?_, ?_, ?_, ?_⟩
  · rw [hinp]
    simp only [List.length_take, List.length_drop]
    omega
  · rw [htgt]
    simp only [List.length_take, List.length_drop]
    omega
  · intro i hi
    rw [hinp, htgt,
      getD_take_drop stream (j * (W + 1) + 1) W i (by omega) (by omega),
      getD_take_drop stream (j * (W + 1)) W (i + 1) (by omega) (by omega)]
    congr 1
    omega
  · rw [hinp,
      getD_take_drop stream (j * (W + 1)) W (W - 1) (by omega) (by omega)]
  · rw [htgt,
      getD_take_drop stream (j * (W + 1) + 1) W (W - 1) (by omega) (by omega)]
    congr 1
    omega

/-- C1 witness: the 8-token stream `[10, ..., 80]` with `W = 3`, window 1. -/
theorem C1_witness :
    (create_input_target
        ((dataset 3 [10, 20, 30, 40, 50, 60, 70, 80]).getD 1 [])).2.getD 2 0 =
      [10, 20, 30, 40, 50, 60, 70, 80].getD (1 * (3 + 1) + 3) 0 :=
  (C1_target_is_shifted_input 3 [10, 20, 30, 40, 50, 60, 70, 80] 1
    (by omega) (by norm_num)).2.2.2.2

/-- C3: the pipeline splits the stream into consecutive non-overlapping
blocks of exactly `W + 1` ids (every window has the same shape, their
concatenation is the stream's longest `(W+1)`-divisible prefix — the
trailing remainder is dropped, not padded); moreover the character-mode
corpus `|ab\n|cd\n` with `W = 3` encodes to the 8-token stream
`[6, 2, 3, 1, 6, 4, 5, 1]` and yields exactly the two windows shown, the
first having input `|ab` and target `ab\n`. -/
theorem C3_consecutive_blocks_drop_remainder (W : ℕ) (stream : List ℕ) :
    (∀ b ∈ dataset W stream, b.length = W + 1) ∧
    (dataset W stream).length = stream.length / (W + 1) ∧
    (dataset W stream).flatten =
      stream.take (stream.length / (W + 1) * (W + 1)) ∧
    text_to_ids (vocabulary "|ab\n|cd\n".toList) "|ab\n|cd\n".toList =
      [6, 2, 3, 1, 6, 4, 5, 1] ∧
    dataset 3 [6, 2, 3, 1, 6, 4, 5, 1] = [[6, 2, 3, 1], [6, 4, 5, 1]] ∧
    (create_input_target [6, 2, 3, 1]).1 = [6, 2, 3] ∧
    ids_to_text (vocabulary "|ab\n|cd\n".toList) [6, 2, 3] = "|ab".toList ∧
    (create_input_target [6, 2, 3, 1]).2 = [2, 3, 1] ∧
    ids_to_text (vocabulary "|ab\n|cd\n".toList) [2, 3, 1] = "ab\n".toList := by
  refine ⟨?_, ?_, batchList_flatten (W + 1) (Nat.succ_pos W) stream,
    by decide, ?_, by decide, by decide, by decide, by decide⟩
  · intro b hb
    rw [dataset, batchList_eq (W + 1) (Nat.succ_pos W)] at hb
    rcases List.mem_map.mp hb with ⟨k, hk, rfl⟩
    rw [List.mem_range] at hk
    have h2 : (k + 1) * (W + 1) ≤ stream.length :=
      (Nat.le_div_iff_mul_le (Nat.succ_pos W)).mp (Nat.succ_le_of_lt hk)
    have h3 : (k + 1) * (W + 1) = k * (W + 1) + (W + 1) := by ring
    simp only [List.length_take, List.length_drop]
    omega
  · rw [dataset, batchList_eq (W + 1) (Nat.succ_pos W)]
    simp
  · rw [dataset, batchList_eq 4 (by omega)]
    decide

/-- C3 witness: the first window of the scenario stream has length 4. -/
theorem C3_witness : ([6, 2, 3, 1] : List ℕ).length = 3 + 1 :=
  (C3_consecutive_blocks_drop_remainder 3 [6, 2, 3, 1, 6, 4, 5, 1]).1
    [6, 2, 3, 1]
    (by rw [dataset, batchList_eq 4 (by omega)]; decide)

end Shahnameh
